import Mathlib

/-!
Shallow embedding of the serde codec layer of `ruma-client-api`
(push-notification and key-management wire types), together with proofs
about its encode/decode behaviour.

The embedding models JSON values as an inductive type whose objects are
ordered lists of key/value entries, matching the order in which serde's
`MapAccess` streams the entries of a JSON object to a visitor.  JSON
numbers are modelled as integers: none of the code under study ever
inspects a numeric payload (numbers only occur as opaque `JsonValue`
payloads), so the choice of number representation is irrelevant to every
statement below.
-/

set_option maxHeartbeats 1000000

namespace Ruma

/-- JSON values, with object fields kept in textual order (the order in
which serde's `MapAccess` yields entries to a visitor). -/
inductive Json where
  | null : Json
  | bool : Bool → Json
  | num : Int → Json
  | str : String → Json
  | arr : List Json → Json
  | obj : List (String × Json) → Json

/-- Decode-error taxonomy of the codec layer.  The Rust code surfaces these
through `serde::de::Error` values built with `invalid_type` /
`invalid_value` / `missing_field`; each constructor here corresponds to one
distinct error site in the source. -/
inductive DeError where
  /-- `keys.rs`: composite key string without a `:` separator. -/
  | missingSeparator : DeError
  /-- `keys.rs`: composite key string with more than one `:` separator. -/
  | tooManySeparators : DeError
  /-- `keys.rs`: left segment is not a recognized algorithm token. -/
  | unknownAlgorithm : String → DeError
  /-- `push.rs` `visit_str`: a string that is none of the three simple actions. -/
  | invalidSimpleAction : String → DeError
  /-- `push.rs` `visit_map`: a `set_tweak` entry whose value is not a string. -/
  | invalidTweakKind : DeError
  /-- `push.rs` `visit_map`: object scanned without finding a `set_tweak` entry. -/
  | missingTweakDiscriminator : DeError
  /-- `push.rs` `deserialize_any`: input is neither a string nor an object. -/
  | invalidActionShape : DeError
  /-- `get_pushrules_all.rs`: unrecognized `kind` discriminator value. -/
  | unknownConditionKind : String → DeError
  /-- derived struct deserializers: a required field is absent. -/
  | missingField : String → DeError
  /-- derived struct deserializers: a known field occurs twice. -/
  | duplicateField : String → DeError
  /-- derived deserializers: a field value has the wrong JSON type. -/
  | typeMismatch : DeError
  deriving DecidableEq, Repr

/-- First value bound to key `k` in an object's entry list
(`serde_json`'s map lookup for a streamed object). -/
def jlookup (k : String) : List (String × Json) → Option Json
  | [] => none
  | (k', v) :: rest => if k' = k then some v else jlookup k rest

/-! ### `src/r0/keys.rs`: `KeyAlgorithm` and `AlgorithmAndDeviceId` -/

/-- The basic key algorithms in the specification (`enum KeyAlgorithm`). -/
inductive KeyAlgorithm where
  | ed25519 : KeyAlgorithm
  | curve25519 : KeyAlgorithm
  | signedCurve25519 : KeyAlgorithm
  deriving DecidableEq, Repr

/-- `impl Display for KeyAlgorithm`: the canonical token of each algorithm. -/
def KeyAlgorithm.toToken : KeyAlgorithm → String
  | .ed25519 => "ed25519"
  | .curve25519 => "curve25519"
  | .signedCurve25519 => "signed_curve25519"

/-- `impl TryFrom<&str> for KeyAlgorithm`: exact, case-sensitive token match. -/
def KeyAlgorithm.fromToken (s : String) : Option KeyAlgorithm :=
  if s = "ed25519" then some .ed25519
  else if s = "curve25519" then some .curve25519
  else if s = "signed_curve25519" then some .signedCurve25519
  else none

/-- Rust's `str::split(':')` on a character list: always returns at least
one (possibly empty) segment, and one extra segment per occurrence of the
separator. -/
def splitColon : List Char → List (List Char)
  | [] => [[]]
  | c :: rest =>
    let r := splitColon rest
    if c = ':' then [] :: r
    else
      match r with
      | [] => [[c]]
      | h :: t => (c :: h) :: t

/-- A key algorithm and a device id, combined with a `:`
(`struct AlgorithmAndDeviceId(pub KeyAlgorithm, pub DeviceId)`;
`DeviceId` is a plain string at this revision). -/
structure AlgorithmAndDeviceId where
  algorithm : KeyAlgorithm
  deviceId : String
  deriving DecidableEq, Repr

/-- `impl Serialize for AlgorithmAndDeviceId`:
`format!("{}:{}", self.0, self.1)` serialized as a JSON string; this is the
string so produced. -/
def AlgorithmAndDeviceId.serialize (id : AlgorithmAndDeviceId) : String :=
  id.algorithm.toToken ++ ":" ++ id.deviceId

/-- `AlgorithmAndDeviceIdVisitor::visit_str`: split on `:`, require exactly
two parts, parse the left part as an algorithm, keep the right part as the
device id verbatim. -/
def AlgorithmAndDeviceId.deserialize (s : String) : Except DeError AlgorithmAndDeviceId :=
  let parts := splitColon s.data
  if parts.length < 2 then
    .error .missingSeparator
  else if parts.length > 2 then
    .error .tooManySeparators
  else
    let left : String := ⟨parts.getD 0 []⟩
    let right : String := ⟨parts.getD 1 []⟩
    match KeyAlgorithm.fromToken left with
    | none => .error (.unknownAlgorithm left)
    | some algorithm => .ok ⟨algorithm, right⟩

/-! Facts about `splitColon` used to reason about the composite-key codec. -/

theorem splitColon_ne_nil (l : List Char) : splitColon l ≠ [] := by
  cases l with
  | nil => simp [splitColon]
  | cons c rest =>
    simp only [splitColon]
    split
    · simp
    · split <;> simp

theorem splitColon_length (l : List Char) :
    (splitColon l).length = l.count ':' + 1 := by
  induction l with
  | nil => simp [splitColon]
  | cons c rest ih =>
    by_cases hc : c = ':'
    · subst hc
      simp [splitColon, List.count_cons, ih]
    · have hb : (c == ':') = false := by simp [hc]
      cases hr : splitColon rest with
      | nil => exact absurd hr (splitColon_ne_nil rest)
      | cons h t =>
        rw [hr] at ih
        simp only [List.length_cons] at ih
        simp only [splitColon, if_neg hc, hr, List.length_cons, List.count_cons, hb]
        simp only [if_false, Bool.false_eq_true]
        omega

theorem splitColon_no_colon (l : List Char) (h : ':' ∉ l) :
    splitColon l = [l] := by
  induction l with
  | nil => simp [splitColon]
  | cons c rest ih =>
    simp only [List.mem_cons, not_or] at h
    have hc : c ≠ ':' := fun hcc => h.1 hcc.symm
    simp only [splitColon, if_neg hc]
    rw [ih h.2]

theorem splitColon_append (l r : List Char) (h : ':' ∉ l) :
    splitColon (l ++ ':' :: r) = l :: splitColon r := by
  induction l with
  | nil => simp [splitColon]
  | cons c rest ih =>
    simp only [List.mem_cons, not_or] at h
    have hc : c ≠ ':' := fun hcc => h.1 hcc.symm
    simp only [List.cons_append, splitColon, if_neg hc]
    rw [show splitColon (rest.append (':' :: r)) = rest :: splitColon r from ih h.2]

/-! ### `src/r0/push.rs`: `Action` and `TweakKind` -/

/-- The different kinds of tweaks available (`enum TweakKind`). -/
inductive TweakKind where
  | sound : TweakKind
  | highlight : TweakKind
  | custom : String → TweakKind
  deriving DecidableEq, Repr

/-- How a notification is delivered for a matching event (`enum Action`). -/
inductive Action where
  | notify : Action
  | dontNotify : Action
  | coalesce : Action
  | setTweak : TweakKind → Option Json → Action

/-- The token written into the `set_tweak` field for each tweak kind
(the `kind_name` computation in `impl Serialize for Action`). -/
def TweakKind.token : TweakKind → String
  | .sound => "sound"
  | .highlight => "highlight"
  | .custom name => name

/-- `impl Serialize for Action` under `serde_json`.

The three payload-free variants go through `serialize_unit_variant`, which
`serde_json` renders as the bare variant string.  The `SetTweak` variant
goes through `serialize_struct_variant("Action", 3, "SetTweak", _)`, which
`serde_json` renders *externally tagged*: an object with the single key
`"SetTweak"` whose value is the object holding the serialized fields
(`set_tweak`, and `value` only when the payload is present). -/
def Action.serialize : Action → Json
  | .notify => .str "notify"
  | .dontNotify => .str "dont_notify"
  | .coalesce => .str "coalesce"
  | .setTweak kind value =>
    let fields :=
      match value with
      | some v => [("set_tweak", Json.str kind.token), ("value", v)]
      | none => [("set_tweak", Json.str kind.token)]
    .obj [("SetTweak", .obj fields)]

/-- `ActionVisitor::visit_str`: match a simple action token. -/
def Action.visitStr (v : String) : Except DeError Action :=
  if v = "notify" then .ok .notify
  else if v = "dont_notify" then .ok .dontNotify
  else if v = "coalesce" then .ok .coalesce
  else .error (.invalidSimpleAction v)

/-- The tweak kind corresponding to a string-valued `set_tweak` entry
(the inner match of `ActionVisitor::visit_map`). -/
def tweakKindOfStr (s : String) : TweakKind :=
  if s = "sound" then .sound
  else if s = "highlight" then .highlight
  else .custom s

/-- The entry-scanning loop of `ActionVisitor::visit_map`: walk the
object's entries in order, recording the most recent `set_tweak` and
`value` captures; a non-string `set_tweak` value aborts with an error; at
the end, a missing `set_tweak` capture is an error. -/
def Action.visitMap : List (String × Json) → Option TweakKind → Option Json →
    Except DeError Action
  | [], none, _ => .error .missingTweakDiscriminator
  | [], some kind, tweakValue => .ok (.setTweak kind tweakValue)
  | (key, value) :: rest, tweakKind, tweakValue =>
    if key = "set_tweak" then
      match value with
      | .str s => Action.visitMap rest (some (tweakKindOfStr s)) tweakValue
      | _ => .error .invalidTweakKind
    else if key = "value" then Action.visitMap rest tweakKind (some value)
    else Action.visitMap rest tweakKind tweakValue

/-- `impl Deserialize for Action`: `deserialize_any` dispatches on the
shape of the input — strings go to `visit_str`, objects to `visit_map`,
and every other shape is rejected. -/
def Action.deserialize : Json → Except DeError Action
  | .str s => Action.visitStr s
  | .obj entries => Action.visitMap entries none none
  | _ => .error .invalidActionShape

/-! ### `src/r0/push/get_pushrules_all.rs`: `PushCondition` -/

/-- A condition for a push rule (`enum PushCondition`, internally tagged
with `kind`). -/
inductive PushCondition where
  | eventMatch : String → String → PushCondition
  | containsDisplayName : PushCondition
  | roomMemberCount : String → PushCondition
  | senderNotificationPermission : String → PushCondition
  deriving DecidableEq, Repr

/-- Serde's derived `Serialize` for the internally tagged `PushCondition`:
the `kind` discriminator first, then the variant's fields. -/
def PushCondition.serialize : PushCondition → Json
  | .eventMatch key pat =>
    .obj [("kind", .str "event_match"), ("key", .str key), ("pattern", .str pat)]
  | .containsDisplayName => .obj [("kind", .str "contains_display_name")]
  | .roomMemberCount is =>
    .obj [("kind", .str "room_member_count"), ("is", .str is)]
  | .senderNotificationPermission key =>
    .obj [("kind", .str "sender_notification_permission"), ("key", .str key)]

/-- The variant-identifier enum serde derives for the internally tagged
`PushCondition` (one constructor per recognized `kind` token). -/
inductive CondField where
  | eventMatch : CondField
  | containsDisplayName : CondField
  | roomMemberCount : CondField
  | senderNotificationPermission : CondField
  deriving DecidableEq, Repr

/-- The variant-identifier deserializer: maps a `kind` string to the
variant it names, or nothing for an unrecognized token. -/
def condFieldOfStr (s : String) : Option CondField :=
  if s = "event_match" then some .eventMatch
  else if s = "contains_display_name" then some .containsDisplayName
  else if s = "room_member_count" then some .roomMemberCount
  else if s = "sender_notification_permission" then some .senderNotificationPermission
  else none

/-- Phase 1 of serde's internally tagged deserialization
(`TaggedContentVisitor`): walk the object's entries in order.  A `kind`
entry when the tag was already captured is a duplicate-field error
(checked before the value is read); otherwise its value is deserialized
as the variant identifier — a non-string value is a type error, an
unrecognized token an unknown-variant error, both firing mid-scan.  Every
other entry is buffered (buffering a JSON value never fails).  At the end
a missing tag is a missing-field error; on success the tag and the
buffered content (in original order) are returned. -/
def PushCondition.scanTag : List (String × Json) → Option CondField →
    List (String × Json) → Except DeError (CondField × List (String × Json))
  | [], none, _ => .error (.missingField "kind")
  | [], some f, buf => .ok (f, buf)
  | (key, value) :: rest, tag, buf =>
    if key = "kind" then
      match tag with
      | some _ => .error (.duplicateField "kind")
      | none =>
        match value with
        | .str k =>
          match condFieldOfStr k with
          | some f => PushCondition.scanTag rest (some f) buf
          | none => .error (.unknownConditionKind k)
        | _ => .error .typeMismatch
    else PushCondition.scanTag rest tag (buf ++ [(key, value)])

/-- Phase 2 field visitor for the `EventMatch` variant: consume the
buffered content in order, capturing `key` and `pattern`; a field seen
twice is a duplicate-field error, a non-string value a type error (both
firing in stream order), unknown fields are ignored, and at the end
missing fields are reported in declaration order (`key`, then
`pattern`). -/
def eventMatchFields : List (String × Json) → Option String → Option String →
    Except DeError (String × String)
  | [], okey, opat =>
    match okey with
    | none => .error (.missingField "key")
    | some key =>
      match opat with
      | none => .error (.missingField "pattern")
      | some pat => .ok (key, pat)
  | (k, v) :: rest, okey, opat =>
    if k = "key" then
      match okey with
      | some _ => .error (.duplicateField "key")
      | none =>
        match v with
        | .str s => eventMatchFields rest (some s) opat
        | _ => .error .typeMismatch
    else if k = "pattern" then
      match opat with
      | some _ => .error (.duplicateField "pattern")
      | none =>
        match v with
        | .str s => eventMatchFields rest okey (some s)
        | _ => .error .typeMismatch
    else eventMatchFields rest okey opat

/-- Phase 2 field visitor for the single-string-field variants
(`RoomMemberCount` wants `is`, `SenderNotificationPermission` wants
`key`): same streaming discipline as `eventMatchFields`. -/
def singleStrField (name : String) : List (String × Json) → Option String →
    Except DeError String
  | [], acc =>
    match acc with
    | none => .error (.missingField name)
    | some s => .ok s
  | (k, v) :: rest, acc =>
    if k = name then
      match acc with
      | some _ => .error (.duplicateField name)
      | none =>
        match v with
        | .str s => singleStrField name rest (some s)
        | _ => .error .typeMismatch
    else singleStrField name rest acc

/-- Serde's derived `Deserialize` for the internally tagged
`PushCondition`: the value must be an object; phase 1 captures the tag and
buffers the remaining content; phase 2 decodes the selected variant's
fields from the buffered content (the unit variant
`ContainsDisplayName` ignores any leftover content, as serde's
internally-tagged-unit visitor drains it). -/
def PushCondition.deserialize : Json → Except DeError PushCondition
  | .obj entries =>
    match PushCondition.scanTag entries none [] with
    | .error e => .error e
    | .ok (.eventMatch, content) =>
      match eventMatchFields content none none with
      | .error e => .error e
      | .ok (key, pat) => .ok (.eventMatch key pat)
    | .ok (.containsDisplayName, _) => .ok .containsDisplayName
    | .ok (.roomMemberCount, content) =>
      match singleStrField "is" content none with
      | .error e => .error e
      | .ok is => .ok (.roomMemberCount is)
    | .ok (.senderNotificationPermission, content) =>
      match singleStrField "key" content none with
      | .error e => .error e
      | .ok key => .ok (.senderNotificationPermission key)
  | _ => .error .typeMismatch

/-! ### `src/r0/push/get_pushrules_all.rs`: `PushRule` and `Ruleset` -/

/-- Decode a JSON value as a `Vec<α>`: the value must be an array and every
element must decode. -/
def decodeVec (f : Json → Except DeError α) : Json → Except DeError (List α)
  | .arr xs => xs.mapM f
  | _ => .error .typeMismatch

/-- Decode a JSON value as a `bool`. -/
def decodeBool : Json → Except DeError Bool
  | .bool b => .ok b
  | _ => .error .typeMismatch

/-- Decode a JSON value as a `String`. -/
def decodeStr : Json → Except DeError String
  | .str s => .ok s
  | _ => .error .typeMismatch

/-- Decode a JSON value as an `Option<α>`: serde's `Option` deserializer
maps `null` to `None` and anything else through the inner deserializer. -/
def decodeOpt (f : Json → Except DeError α) : Json → Except DeError (Option α)
  | .null => .ok none
  | v => (f v).map some

/-- A push rule (`struct PushRule`). -/
structure PushRule where
  actions : List Action
  default : Bool
  enabled : Bool
  rule_id : String
  conditions : Option (List PushCondition)
  pattern : Option String

/-- Field accumulator of the derived `Deserialize` for `PushRule`. -/
structure PushRuleAcc where
  actions : Option (List Action) := none
  default : Option Bool := none
  enabled : Option Bool := none
  rule_id : Option String := none
  conditions : Option (Option (List PushCondition)) := none
  pattern : Option (Option String) := none

/-- The map-visiting loop of the derived `Deserialize` for `PushRule`:
entries are consumed in order, a known field seen twice is a duplicate
error, unknown fields are ignored, and at the end each required field must
have been seen (`Option`-typed fields default to `None`). -/
def PushRule.visitEntries : List (String × Json) → PushRuleAcc → Except DeError PushRule
  | [], acc =>
    match acc.actions with
    | none => .error (.missingField "actions")
    | some actions =>
      match acc.default with
      | none => .error (.missingField "default")
      | some default =>
        match acc.enabled with
        | none => .error (.missingField "enabled")
        | some enabled =>
          match acc.rule_id with
          | none => .error (.missingField "rule_id")
          | some rule_id =>
            .ok ⟨actions, default, enabled, rule_id,
              acc.conditions.getD none, acc.pattern.getD none⟩
  | (key, value) :: rest, acc =>
    if key = "actions" then
      match acc.actions with
      | some _ => .error (.duplicateField "actions")
      | none =>
        match decodeVec Action.deserialize value with
        | .error e => .error e
        | .ok v => PushRule.visitEntries rest { acc with actions := some v }
    else if key = "default" then
      match acc.default with
      | some _ => .error (.duplicateField "default")
      | none =>
        match decodeBool value with
        | .error e => .error e
        | .ok v => PushRule.visitEntries rest { acc with default := some v }
    else if key = "enabled" then
      match acc.enabled with
      | some _ => .error (.duplicateField "enabled")
      | none =>
        match decodeBool value with
        | .error e => .error e
        | .ok v => PushRule.visitEntries rest { acc with enabled := some v }
    else if key = "rule_id" then
      match acc.rule_id with
      | some _ => .error (.duplicateField "rule_id")
      | none =>
        match decodeStr value with
        | .error e => .error e
        | .ok v => PushRule.visitEntries rest { acc with rule_id := some v }
    else if key = "conditions" then
      match acc.conditions with
      | some _ => .error (.duplicateField "conditions")
      | none =>
        match decodeOpt (decodeVec PushCondition.deserialize) value with
        | .error e => .error e
        | .ok v => PushRule.visitEntries rest { acc with conditions := some v }
    else if key = "pattern" then
      match acc.pattern with
      | some _ => .error (.duplicateField "pattern")
      | none =>
        match decodeOpt decodeStr value with
        | .error e => .error e
        | .ok v => PushRule.visitEntries rest { acc with pattern := some v }
    else PushRule.visitEntries rest acc

/-- Derived `Deserialize` for `PushRule`: the value must be an object. -/
def PushRule.deserialize : Json → Except DeError PushRule
  | .obj entries => PushRule.visitEntries entries {}
  | _ => .error .typeMismatch

/-- A set of push rules (`struct Ruleset`), five categories renamed to
`content`, `override`, `room`, `sender`, `underride` on the wire. -/
structure Ruleset where
  content_rules : List PushRule
  override_rules : List PushRule
  room_rules : List PushRule
  sender_rules : List PushRule
  underride_rules : List PushRule

/-- Field accumulator of the derived `Deserialize` for `Ruleset`. -/
structure RulesetAcc where
  content : Option (List PushRule) := none
  override : Option (List PushRule) := none
  room : Option (List PushRule) := none
  sender : Option (List PushRule) := none
  underride : Option (List PushRule) := none

/-- The map-visiting loop of the derived `Deserialize` for `Ruleset`:
all five category fields are required (the struct has no field defaults),
duplicates are an error, unknown fields are ignored, and at the end any
missing category is a missing-field error. -/
def Ruleset.visitEntries : List (String × Json) → RulesetAcc → Except DeError Ruleset
  | [], acc =>
    match acc.content with
    | none => .error (.missingField "content")
    | some content =>
      match acc.override with
      | none => .error (.missingField "override")
      | some override =>
        match acc.room with
        | none => .error (.missingField "room")
        | some room =>
          match acc.sender with
          | none => .error (.missingField "sender")
          | some sender =>
            match acc.underride with
            | none => .error (.missingField "underride")
            | some underride => .ok ⟨content, override, room, sender, underride⟩
  | (key, value) :: rest, acc =>
    if key = "content" then
      match acc.content with
      | some _ => .error (.duplicateField "content")
      | none =>
        match decodeVec PushRule.deserialize value with
        | .error e => .error e
        | .ok v => Ruleset.visitEntries rest { acc with content := some v }
    else if key = "override" then
      match acc.override with
      | some _ => .error (.duplicateField "override")
      | none =>
        match decodeVec PushRule.deserialize value with
        | .error e => .error e
        | .ok v => Ruleset.visitEntries rest { acc with override := some v }
    else if key = "room" then
      match acc.room with
      | some _ => .error (.duplicateField "room")
      | none =>
        match decodeVec PushRule.deserialize value with
        | .error e => .error e
        | .ok v => Ruleset.visitEntries rest { acc with room := some v }
    else if key = "sender" then
      match acc.sender with
      | some _ => .error (.duplicateField "sender")
      | none =>
        match decodeVec PushRule.deserialize value with
        | .error e => .error e
        | .ok v => Ruleset.visitEntries rest { acc with sender := some v }
    else if key = "underride" then
      match acc.underride with
      | some _ => .error (.duplicateField "underride")
      | none =>
        match decodeVec PushRule.deserialize value with
        | .error e => .error e
        | .ok v => Ruleset.visitEntries rest { acc with underride := some v }
    else Ruleset.visitEntries rest acc

/-- Derived `Deserialize` for `Ruleset`: the value must be an object. -/
def Ruleset.deserialize : Json → Except DeError Ruleset
  | .obj entries => Ruleset.visitEntries entries {}
  | _ => .error .typeMismatch

/-! ### Auxiliary lemmas -/

theorem data_append (s t : String) : (s ++ t).data = s.data ++ t.data := by
  cases s; cases t; rfl

theorem fromToken_mk_data_toToken (a : KeyAlgorithm) :
    KeyAlgorithm.fromToken ⟨a.toToken.data⟩ = some a := by
  cases a <;> rfl

theorem colon_not_mem_toToken (a : KeyAlgorithm) : ':' ∉ a.toToken.data := by
  cases a <;> decide

theorem jlookup_eq_none (k : String) (es : List (String × Json))
    (h : ∀ p ∈ es, p.1 ≠ k) : jlookup k es = none := by
  induction es with
  | nil => rfl
  | cons p rest ih =>
    obtain ⟨k', v⟩ := p
    have hk : k' ≠ k := h (k', v) (List.mem_cons_self _ _)
    simp only [jlookup, if_neg hk]
    exact ih fun q hq => h q (List.mem_cons_of_mem _ hq)

/-! ## Claim theorems -/

/-- Claim C4: decoding a composite key string fails with a
missing-separator error when the string has zero colons, with a
too-many-separators error when it has more than one colon, and with an
unknown-algorithm error naming the left segment when it has exactly one
colon but the left segment is not a recognized algorithm token (matched
case-sensitively, with no trimming); otherwise it succeeds with the parsed
algorithm and the right segment as the device id. -/
theorem composite_key_decode_cases (s : String) :
    (s.data.count ':' = 0 →
      AlgorithmAndDeviceId.deserialize s = .error .missingSeparator)
    ∧ (1 < s.data.count ':' →
      AlgorithmAndDeviceId.deserialize s = .error .tooManySeparators)
    ∧ (∀ l r : List Char, ':' ∉ l → ':' ∉ r → s.data = l ++ ':' :: r →
        (KeyAlgorithm.fromToken ⟨l⟩ = none →
          AlgorithmAndDeviceId.deserialize s = .error (.unknownAlgorithm ⟨l⟩))
        ∧ (∀ a : KeyAlgorithm, KeyAlgorithm.fromToken ⟨l⟩ = some a →
          AlgorithmAndDeviceId.deserialize s = .ok ⟨a, ⟨r⟩⟩))
    ∧ KeyAlgorithm.fromToken "Ed25519" = none
    ∧ KeyAlgorithm.fromToken " ed25519" = none
    ∧ KeyAlgorithm.fromToken "ed25519 " = none := by
  refine ⟨?_, ?_, ?_, by decide, by decide, by decide⟩
  · intro h
    have hlen : (splitColon s.data).length = 1 := by rw [splitColon_length, h]
    simp [AlgorithmAndDeviceId.deserialize, hlen]
  · intro h
    have hlen : (splitColon s.data).length = s.data.count ':' + 1 := splitColon_length _
    simp only [AlgorithmAndDeviceId.deserialize]
    rw [if_neg (by omega), if_pos (by omega)]
  · intro l r hl hr hs
    have hsplit : splitColon s.data = [l, r] := by
      rw [hs, splitColon_append _ _ hl, splitColon_no_colon _ hr]
    constructor
    · intro hnone
      simp [AlgorithmAndDeviceId.deserialize, hsplit, hnone]
    · intro a ha
      simp [AlgorithmAndDeviceId.deserialize, hsplit, ha]

/-- Witness for C4: each branch of `composite_key_decode_cases`
instantiated at a concrete input. -/
theorem composite_key_decode_cases_witness :
    AlgorithmAndDeviceId.deserialize "ed25519" = .error .missingSeparator
    ∧ AlgorithmAndDeviceId.deserialize "ed25519:AB:CD" = .error .tooManySeparators
    ∧ AlgorithmAndDeviceId.deserialize "rot13:ABCDEF" = .error (.unknownAlgorithm "rot13")
    ∧ AlgorithmAndDeviceId.deserialize "ed25519:ABCDEF" = .ok ⟨.ed25519, "ABCDEF"⟩ := by
  refine ⟨(composite_key_decode_cases "ed25519").1 (by decide),
    (composite_key_decode_cases "ed25519:AB:CD").2.1 (by decide), ?_, ?_⟩
  · exact ((composite_key_decode_cases "rot13:ABCDEF").2.2.1 "rot13".data "ABCDEF".data
      (by decide) (by decide) (by decide)).1 (by decide)
  · exact ((composite_key_decode_cases "ed25519:ABCDEF").2.2.1 "ed25519".data "ABCDEF".data
      (by decide) (by decide) (by decide)).2 .ed25519 (by decide)

/-- Claim C9: decoding a recognized algorithm token followed by a single
colon and nothing else succeeds, returning that algorithm paired with the
empty string as device id — the device-id segment is not validated. -/
theorem empty_device_id_accepted (a : KeyAlgorithm) :
    AlgorithmAndDeviceId.deserialize (a.toToken ++ ":") = .ok ⟨a, ""⟩ := by
  cases a <;> rfl

/-- Counterexample for C3: a device id containing a colon does not survive
the round trip — the encoded string has two colons and decoding rejects it. -/
theorem composite_key_roundtrip_cex :
    AlgorithmAndDeviceId.deserialize (AlgorithmAndDeviceId.serialize ⟨.ed25519, "A:B"⟩)
        = .error .tooManySeparators
    ∧ AlgorithmAndDeviceId.deserialize (AlgorithmAndDeviceId.serialize ⟨.ed25519, "A:B"⟩)
        ≠ .ok ⟨.ed25519, "A:B"⟩ := by
  refine ⟨rfl, ?_⟩
  intro h
  rw [show AlgorithmAndDeviceId.deserialize (AlgorithmAndDeviceId.serialize ⟨.ed25519, "A:B"⟩)
      = .error .tooManySeparators from rfl] at h
  exact Except.noConfusion h

/-- Claim C3 as amended: the composite-key round trip
`decode (encode id) = id` holds for every id whose device-id string
contains no colon. -/
theorem composite_key_roundtrip_amended (a : KeyAlgorithm) (d : String)
    (hd : ':' ∉ d.data) :
    AlgorithmAndDeviceId.deserialize (AlgorithmAndDeviceId.serialize ⟨a, d⟩)
      = .ok ⟨a, d⟩ := by
  have hdata : (AlgorithmAndDeviceId.serialize ⟨a, d⟩).data
      = a.toToken.data ++ ':' :: d.data := by
    simp [AlgorithmAndDeviceId.serialize, data_append]
  have hsplit : splitColon (AlgorithmAndDeviceId.serialize ⟨a, d⟩).data
      = [a.toToken.data, d.data] := by
    rw [hdata, splitColon_append _ _ (colon_not_mem_toToken a), splitColon_no_colon _ hd]
  simp [AlgorithmAndDeviceId.deserialize, hsplit, fromToken_mk_data_toToken]

/-- Witness for C3's amended theorem at a concrete algorithm and device id. -/
theorem composite_key_roundtrip_amended_witness :
    AlgorithmAndDeviceId.deserialize (AlgorithmAndDeviceId.serialize ⟨.ed25519, "DEVICE"⟩)
      = .ok ⟨.ed25519, "DEVICE"⟩ :=
  composite_key_roundtrip_amended .ed25519 "DEVICE" (by decide)

/-- Claim C5: decoding a JSON string as an `Action` yields `Notify` for
`"notify"`, `DontNotify` for `"dont_notify"` and `Coalesce` for
`"coalesce"`, fails with an invalid-simple-action error on every other
string, and encoding each of the three payload-free variants yields
exactly the corresponding bare string. -/
theorem simple_action_codec :
    Action.deserialize (.str "notify") = .ok .notify
    ∧ Action.deserialize (.str "dont_notify") = .ok .dontNotify
    ∧ Action.deserialize (.str "coalesce") = .ok .coalesce
    ∧ (∀ s : String, s ≠ "notify" → s ≠ "dont_notify" → s ≠ "coalesce" →
        Action.deserialize (.str s) = .error (.invalidSimpleAction s))
    ∧ Action.serialize .notify = .str "notify"
    ∧ Action.serialize .dontNotify = .str "dont_notify"
    ∧ Action.serialize .coalesce = .str "coalesce" := by
  refine ⟨rfl, rfl, rfl, ?_, rfl, rfl, rfl⟩
  intro s h1 h2 h3
  simp [Action.deserialize, Action.visitStr, h1, h2, h3]

/-- Witness for C5 at a concrete unrecognized string. -/
theorem simple_action_codec_witness :
    Action.deserialize (.str "ring") = .error (.invalidSimpleAction "ring") :=
  simple_action_codec.2.2.2.1 "ring" (by decide) (by decide) (by decide)

/-- Counterexample for C2: the `SetTweak` variant does not survive the
round trip.  `serde_json` renders `serialize_struct_variant` externally
tagged, so encoding `SetTweak{Sound, None}` yields
`{"SetTweak":{"set_tweak":"sound"}}`; the decoder scans that object,
finds no `set_tweak` entry (the only key is `"SetTweak"`), and fails. -/
theorem action_settweak_roundtrip_cex :
    Action.deserialize (Action.serialize (.setTweak .sound none))
        = .error .missingTweakDiscriminator
    ∧ Action.deserialize (Action.serialize (.setTweak .sound none))
        ≠ .ok (.setTweak .sound none) := by
  refine ⟨rfl, ?_⟩
  intro h
  rw [show Action.deserialize (Action.serialize (.setTweak .sound none))
      = .error .missingTweakDiscriminator from rfl] at h
  exact Except.noConfusion h

/-- Claim C2 as amended: `decode (encode a) = a` holds exactly for the
three payload-free variants; every `SetTweak` value encodes to an
externally tagged object `{"SetTweak": {...}}` that the decoder rejects
with a missing-discriminator error, whatever the tweak kind and payload. -/
theorem action_roundtrip_amended :
    (∀ a : Action, a = .notify ∨ a = .dontNotify ∨ a = .coalesce →
        Action.deserialize (Action.serialize a) = .ok a)
    ∧ (∀ (kind : TweakKind) (value : Option Json),
        Action.deserialize (Action.serialize (.setTweak kind value))
          = .error .missingTweakDiscriminator) := by
  constructor
  · rintro a (rfl | rfl | rfl) <;> rfl
  · intro kind value
    cases value <;> rfl

/-- Witness for C2's amended theorem: the simple-variant branch at
`Notify` and the `SetTweak` branch at a concrete tweak. -/
theorem action_roundtrip_amended_witness :
    Action.deserialize (Action.serialize .notify) = .ok .notify
    ∧ Action.deserialize (Action.serialize (.setTweak .highlight (some (.bool true))))
        = .error .missingTweakDiscriminator :=
  ⟨action_roundtrip_amended.1 .notify (Or.inl rfl),
    action_roundtrip_amended.2 .highlight (some (.bool true))⟩

/-- Counterexample for C7: encoding `SetTweak{Sound, None}` does not
produce an object carrying a top-level `set_tweak` field; `serde_json`
renders `serialize_struct_variant` externally tagged, wrapping the fields
one level down under the single key `"SetTweak"`. -/
theorem settweak_encode_cex :
    Action.serialize (.setTweak .sound none)
        = .obj [("SetTweak", .obj [("set_tweak", .str "sound")])]
    ∧ Action.serialize (.setTweak .sound none) ≠ .obj [("set_tweak", .str "sound")] := by
  refine ⟨rfl, ?_⟩
  intro h
  rw [show Action.serialize (.setTweak .sound none)
      = .obj [("SetTweak", .obj [("set_tweak", .str "sound")])] from rfl] at h
  simp at h

/-- Claim C7 as amended: encoding a `SetTweak` action is total and
produces an object with the single field `SetTweak`, whose value is an
object whose `set_tweak` field holds the tweak's token (`"sound"` for
`Sound`, `"highlight"` for `Highlight`, the `Custom` name verbatim) and,
only when the optional payload is present, a `value` field holding the
payload unchanged; an absent payload means the `value` field is omitted
entirely, never emitted as null. -/
theorem settweak_encode_amended (kind : TweakKind) (value : Option Json) :
    ∃ inner : List (String × Json),
      Action.serialize (.setTweak kind value) = .obj [("SetTweak", .obj inner)]
      ∧ jlookup "set_tweak" inner = some (.str kind.token)
      ∧ (∀ v : Json, value = some v → jlookup "value" inner = some v)
      ∧ (value = none → jlookup "value" inner = none)
      ∧ TweakKind.token .sound = "sound"
      ∧ TweakKind.token .highlight = "highlight"
      ∧ (∀ s : String, TweakKind.token (.custom s) = s) := by
  cases value with
  | none =>
    refine ⟨_, rfl, rfl, ?_, fun _ => rfl, rfl, rfl, fun s => rfl⟩
    intro v hv
    exact absurd hv (by simp)
  | some v =>
    refine ⟨_, rfl, rfl, ?_, ?_, rfl, rfl, fun s => rfl⟩
    · intro w hw
      cases hw
      rfl
    · intro h
      exact absurd h (by simp)

/-- Witness for C7's amended theorem at a concrete custom tweak with a
payload, discharging the payload-presence hypothesis. -/
theorem settweak_encode_amended_witness :
    ∃ inner : List (String × Json),
      Action.serialize (.setTweak (.custom "blink") (some (.bool true)))
          = .obj [("SetTweak", .obj inner)]
      ∧ jlookup "set_tweak" inner = some (.str "blink")
      ∧ jlookup "value" inner = some (.bool true) := by
  obtain ⟨inner, h1, h2, h3, -⟩ :=
    settweak_encode_amended (.custom "blink") (some (.bool true))
  exact ⟨inner, h1, h2, h3 _ rfl⟩

/-! Helper lemmas about the `visit_map` scan of the `Action` decoder. -/

theorem visitMap_bad_tweak (es : List (String × Json)) (tk : Option TweakKind)
    (tv : Option Json)
    (h : ∃ p ∈ es, p.1 = "set_tweak" ∧ ∀ t : String, p.2 ≠ .str t) :
    Action.visitMap es tk tv = .error .invalidTweakKind := by
  induction es generalizing tk tv with
  | nil =>
    obtain ⟨p, hp, -⟩ := h
    simp at hp
  | cons q rest ih =>
    obtain ⟨key, value⟩ := q
    obtain ⟨p, hp, hp1, hp2⟩ := h
    cases List.mem_cons.mp hp with
    | inl heq =>
      subst heq
      have hk : key = "set_tweak" := hp1
      have hv : ∀ t : String, value ≠ Json.str t := hp2
      simp only [Action.visitMap, if_pos hk]
    | inr hmem =>
      by_cases h1 : key = "set_tweak"
      · cases value with
        | str s =>
          subst h1
          show Action.visitMap rest (some (tweakKindOfStr s)) tv = _
          exact ih _ _ ⟨p, hmem, hp1, hp2⟩
        | null => simp only [Action.visitMap, if_pos h1]
        | bool b => simp only [Action.visitMap, if_pos h1]
        | num n => simp only [Action.visitMap, if_pos h1]
        | arr l => simp only [Action.visitMap, if_pos h1]
        | obj o => simp only [Action.visitMap, if_pos h1]
      · by_cases h2 : key = "value"
        · show Action.visitMap ((key, value) :: rest) tk tv = _
          rw [show Action.visitMap ((key, value) :: rest) tk tv
              = Action.visitMap rest tk (some value) by
            simp only [Action.visitMap, if_neg h1, if_pos h2]]
          exact ih _ _ ⟨p, hmem, hp1, hp2⟩
        · rw [show Action.visitMap ((key, value) :: rest) tk tv
              = Action.visitMap rest tk tv by
            simp only [Action.visitMap, if_neg h1, if_neg h2]]
          exact ih _ _ ⟨p, hmem, hp1, hp2⟩

theorem visitMap_no_tweak (es : List (String × Json)) (tv : Option Json)
    (h : ∀ p ∈ es, p.1 ≠ "set_tweak") :
    Action.visitMap es none tv = .error .missingTweakDiscriminator := by
  induction es generalizing tv with
  | nil => rfl
  | cons q rest ih =>
    obtain ⟨key, value⟩ := q
    have hk : key ≠ "set_tweak" := h (key, value) (List.mem_cons_self _ _)
    have hrest : ∀ p ∈ rest, p.1 ≠ "set_tweak" :=
      fun q hq => h q (List.mem_cons_of_mem _ hq)
    simp only [Action.visitMap, if_neg hk]
    by_cases h2 : key = "value"
    · rw [if_pos h2]
      exact ih _ hrest
    · rw [if_neg h2]
      exact ih _ hrest

theorem visitMap_append_wellTyped (es rest : List (String × Json))
    (tk : Option TweakKind) (tv : Option Json)
    (h : ∀ p ∈ es, p.1 = "set_tweak" → ∃ t : String, p.2 = .str t) :
    ∃ tk' tv', Action.visitMap (es ++ rest) tk tv = Action.visitMap rest tk' tv' := by
  induction es generalizing tk tv with
  | nil => exact ⟨tk, tv, rfl⟩
  | cons q es' ih =>
    obtain ⟨key, value⟩ := q
    have hrest : ∀ p ∈ es', p.1 = "set_tweak" → ∃ t : String, p.2 = .str t :=
      fun q hq => h q (List.mem_cons_of_mem _ hq)
    by_cases h1 : key = "set_tweak"
    · obtain ⟨t, ht⟩ := h (key, value) (List.mem_cons_self _ _) h1
      simp only at ht
      subst ht
      simp only [List.cons_append, Action.visitMap, if_pos h1]
      exact ih _ _ hrest
    · simp only [List.cons_append, Action.visitMap, if_neg h1]
      by_cases h2 : key = "value"
      · rw [if_pos h2]
        exact ih _ _ hrest
      · rw [if_neg h2]
        exact ih _ _ hrest

/-- Claim C6: decoding an `Action` object scans all entries independently
of field order — a string-valued `set_tweak` entry determines the kind
(`"sound"` → `Sound`, `"highlight"` → `Highlight`, anything else →
`Custom` of that name), a non-string `set_tweak` value is an error, a
`value` entry is captured as the optional payload whether it appears
before or after `set_tweak`, an object with no `set_tweak` entry fails
with a missing-discriminator error, and unrecognized extra fields are
ignored rather than rejected. -/
theorem action_map_decode :
    (∀ s : String, Action.deserialize (.obj [("set_tweak", .str s)])
        = .ok (.setTweak (tweakKindOfStr s) none))
    ∧ tweakKindOfStr "sound" = .sound
    ∧ tweakKindOfStr "highlight" = .highlight
    ∧ (∀ s : String, s ≠ "sound" → s ≠ "highlight" → tweakKindOfStr s = .custom s)
    ∧ (∀ es : List (String × Json),
        (∃ p ∈ es, p.1 = "set_tweak" ∧ ∀ t : String, p.2 ≠ .str t) →
        Action.deserialize (.obj es) = .error .invalidTweakKind)
    ∧ (∀ (s : String) (v : Json),
        Action.deserialize (.obj [("value", v), ("set_tweak", .str s)])
            = Action.deserialize (.obj [("set_tweak", .str s), ("value", v)])
        ∧ Action.deserialize (.obj [("set_tweak", .str s), ("value", v)])
            = .ok (.setTweak (tweakKindOfStr s) (some v)))
    ∧ (∀ es : List (String × Json), (∀ p ∈ es, p.1 ≠ "set_tweak") →
        Action.deserialize (.obj es) = .error .missingTweakDiscriminator)
    ∧ (∀ (k : String) (v : Json) (es : List (String × Json)),
        k ≠ "set_tweak" → k ≠ "value" →
        Action.deserialize (.obj ((k, v) :: es)) = Action.deserialize (.obj es)) := by
  refine ⟨fun s => rfl, rfl, rfl, ?_, ?_, fun s v => ⟨rfl, rfl⟩, ?_, ?_⟩
  · intro s h1 h2
    simp [tweakKindOfStr, h1, h2]
  · intro es h
    exact visitMap_bad_tweak es none none h
  · intro es h
    exact visitMap_no_tweak es none h
  · intro k v es h1 h2
    show Action.visitMap ((k, v) :: es) none none = Action.visitMap es none none
    simp only [Action.visitMap, if_neg h1, if_neg h2]

/-- Witness for C6: each hypothesis-bearing branch of `action_map_decode`
instantiated at a concrete input. -/
theorem action_map_decode_witness :
    tweakKindOfStr "blink" = .custom "blink"
    ∧ Action.deserialize (.obj [("set_tweak", Json.num 5)]) = .error .invalidTweakKind
    ∧ Action.deserialize (.obj [("value", Json.bool true)])
        = .error .missingTweakDiscriminator
    ∧ Action.deserialize (.obj [("foo", Json.null), ("set_tweak", Json.str "sound")])
        = Action.deserialize (.obj [("set_tweak", Json.str "sound")]) := by
  refine ⟨action_map_decode.2.2.2.1 "blink" (by decide) (by decide), ?_, ?_, ?_⟩
  · exact action_map_decode.2.2.2.2.1 _
      ⟨("set_tweak", Json.num 5), List.mem_cons_self _ _, rfl,
        fun t h => Json.noConfusion h⟩
  · exact action_map_decode.2.2.2.2.2.2.1 _ (by
      intro p hp
      simp only [List.mem_singleton] at hp
      subst hp
      decide)
  · exact action_map_decode.2.2.2.2.2.2.2 "foo" Json.null _ (by decide) (by decide)

/-- Claim C10: duplicate `set_tweak` or `value` keys in an `Action` object
are not rejected — the scan overwrites earlier captures, so the last
occurrence of each key determines the resulting kind and payload. -/
theorem action_map_last_occurrence_wins :
    (∀ (es : List (String × Json)) (s : String) (v : Json),
        (∀ p ∈ es, p.1 = "set_tweak" → ∃ t : String, p.2 = .str t) →
        Action.deserialize (.obj (es ++ [("set_tweak", .str s), ("value", v)]))
          = .ok (.setTweak (tweakKindOfStr s) (some v)))
    ∧ (∀ s₁ s₂ : String,
        Action.deserialize (.obj [("set_tweak", .str s₁), ("set_tweak", .str s₂)])
          = .ok (.setTweak (tweakKindOfStr s₂) none))
    ∧ (∀ (s : String) (v₁ v₂ : Json),
        Action.deserialize (.obj [("set_tweak", .str s), ("value", v₁), ("value", v₂)])
          = .ok (.setTweak (tweakKindOfStr s) (some v₂))) := by
  refine ⟨?_, fun s₁ s₂ => rfl, fun s v₁ v₂ => rfl⟩
  intro es s v h
  obtain ⟨tk', tv', heq⟩ :=
    visitMap_append_wellTyped es [("set_tweak", .str s), ("value", v)] none none h
  show Action.visitMap (es ++ [("set_tweak", .str s), ("value", v)]) none none = _
  rw [heq]
  rfl

/-- Witness for C10: three entries where both keys occur twice; the later
`set_tweak` and `value` entries win. -/
theorem action_map_last_occurrence_wins_witness :
    Action.deserialize (.obj [("set_tweak", Json.str "sound"),
        ("set_tweak", Json.str "highlight"), ("value", Json.num 1)])
      = .ok (.setTweak .highlight (some (.num 1))) := by
  have h := action_map_last_occurrence_wins.1 [("set_tweak", Json.str "sound")]
    "highlight" (Json.num 1) (by
      intro p hp h1
      simp only [List.mem_singleton] at hp
      subst hp
      exact ⟨"sound", rfl⟩)
  exact h

/-! Helper lemmas about the two phases of the internally tagged
`PushCondition` deserializer. -/

theorem scanTag_no_kind (es : List (String × Json)) (buf : List (String × Json))
    (h : ∀ p ∈ es, p.1 ≠ "kind") :
    PushCondition.scanTag es none buf = .error (.missingField "kind") := by
  induction es generalizing buf with
  | nil => rfl
  | cons q rest ih =>
    obtain ⟨key, value⟩ := q
    have hk : key ≠ "kind" := h (key, value) (List.mem_cons_self _ _)
    simp only [PushCondition.scanTag, if_neg hk]
    exact ih _ fun p hp => h p (List.mem_cons_of_mem _ hp)

theorem scanTag_first_unknown (es : List (String × Json))
    (buf : List (String × Json)) (k : String)
    (hl : jlookup "kind" es = some (.str k)) (hu : condFieldOfStr k = none) :
    PushCondition.scanTag es none buf = .error (.unknownConditionKind k) := by
  induction es generalizing buf with
  | nil => simp [jlookup] at hl
  | cons q rest ih =>
    obtain ⟨key, value⟩ := q
    by_cases hk : key = "kind"
    · subst hk
      simp [jlookup] at hl
      subst hl
      simp [PushCondition.scanTag, hu]
    · simp only [jlookup, if_neg hk] at hl
      simp only [PushCondition.scanTag, if_neg hk]
      exact ih _ hl

theorem scanTag_some_ok (es : List (String × Json)) (buf : List (String × Json))
    (f f' : CondField) (content : List (String × Json))
    (h : PushCondition.scanTag es (some f) buf = .ok (f', content)) : f' = f := by
  induction es generalizing buf with
  | nil =>
    simp [PushCondition.scanTag] at h
    exact h.1.symm
  | cons q rest ih =>
    obtain ⟨key, value⟩ := q
    by_cases hk : key = "kind"
    · subst hk
      simp [PushCondition.scanTag] at h
    · simp only [PushCondition.scanTag, if_neg hk] at h
      exact ih _ h

theorem scanTag_ok_tag (es : List (String × Json)) (buf : List (String × Json))
    (f : CondField) (content : List (String × Json)) (k : String)
    (h : PushCondition.scanTag es none buf = .ok (f, content))
    (hl : jlookup "kind" es = some (.str k)) :
    condFieldOfStr k = some f := by
  induction es generalizing buf with
  | nil => simp [jlookup] at hl
  | cons q rest ih =>
    obtain ⟨key, value⟩ := q
    by_cases hk : key = "kind"
    · subst hk
      simp [jlookup] at hl
      subst hl
      cases hc : condFieldOfStr k with
      | none => simp [PushCondition.scanTag, hc] at h
      | some f0 =>
        have hrec : PushCondition.scanTag rest (some f0) buf = .ok (f, content) := by
          simpa [PushCondition.scanTag, hc] using h
        rw [scanTag_some_ok rest buf f0 f content hrec]
    · simp only [jlookup, if_neg hk] at hl
      simp only [PushCondition.scanTag, if_neg hk] at h
      exact ih _ h hl

theorem scanTag_content_keys (es : List (String × Json))
    (buf : List (String × Json)) (tag : Option CondField) (f : CondField)
    (content : List (String × Json)) (name : String)
    (hbuf : ∀ p ∈ buf, p.1 ≠ name) (hes : ∀ p ∈ es, p.1 ≠ name)
    (h : PushCondition.scanTag es tag buf = .ok (f, content)) :
    ∀ p ∈ content, p.1 ≠ name := by
  induction es generalizing buf tag with
  | nil =>
    cases tag with
    | none => exact absurd h (by simp [PushCondition.scanTag])
    | some f0 =>
      simp [PushCondition.scanTag] at h
      obtain ⟨-, hbc⟩ := h
      exact hbc ▸ hbuf
  | cons q rest ih =>
    obtain ⟨key, value⟩ := q
    have hes' : ∀ p ∈ rest, p.1 ≠ name := fun p hp => hes p (List.mem_cons_of_mem _ hp)
    by_cases hk : key = "kind"
    · subst hk
      cases tag with
      | some f0 => simp [PushCondition.scanTag] at h
      | none =>
        cases value with
        | str s =>
          cases hc : condFieldOfStr s with
          | none => simp [PushCondition.scanTag, hc] at h
          | some f0 =>
            have hrec : PushCondition.scanTag rest (some f0) buf = .ok (f, content) := by
              simpa [PushCondition.scanTag, hc] using h
            exact ih _ _ hbuf hes' hrec
        | null => simp [PushCondition.scanTag] at h
        | bool b => simp [PushCondition.scanTag] at h
        | num n => simp [PushCondition.scanTag] at h
        | arr l => simp [PushCondition.scanTag] at h
        | obj o => simp [PushCondition.scanTag] at h
    · have hrec : PushCondition.scanTag rest tag (buf ++ [(key, value)]) = .ok (f, content) := by
        simpa [PushCondition.scanTag, hk] using h
      have hbuf' : ∀ p ∈ buf ++ [(key, value)], p.1 ≠ name := by
        intro p hp
        rcases List.mem_append.mp hp with hp | hp
        · exact hbuf p hp
        · simp only [List.mem_singleton] at hp
          subst hp
          exact hes _ (List.mem_cons_self _ _)
      exact ih _ _ hbuf' hes' hrec

theorem eventMatchFields_no_key (content : List (String × Json))
    (opat : Option String) (h : ∀ p ∈ content, p.1 ≠ "key") :
    ∃ e, eventMatchFields content none opat = .error e := by
  induction content generalizing opat with
  | nil => exact ⟨.missingField "key", rfl⟩
  | cons q rest ih =>
    obtain ⟨k, v⟩ := q
    have hk : k ≠ "key" := h (k, v) (List.mem_cons_self _ _)
    have hrest : ∀ p ∈ rest, p.1 ≠ "key" := fun p hp => h p (List.mem_cons_of_mem _ hp)
    by_cases h2 : k = "pattern"
    · cases opat with
      | some pat =>
        exact ⟨.duplicateField "pattern", by simp [eventMatchFields, hk, h2]⟩
      | none =>
        cases v with
        | str s =>
          obtain ⟨e, he⟩ := ih (some s) hrest
          exact ⟨e, by simp [eventMatchFields, hk, h2, he]⟩
        | null => exact ⟨.typeMismatch, by simp [eventMatchFields, hk, h2]⟩
        | bool b => exact ⟨.typeMismatch, by simp [eventMatchFields, hk, h2]⟩
        | num n => exact ⟨.typeMismatch, by simp [eventMatchFields, hk, h2]⟩
        | arr l => exact ⟨.typeMismatch, by simp [eventMatchFields, hk, h2]⟩
        | obj o => exact ⟨.typeMismatch, by simp [eventMatchFields, hk, h2]⟩
    · obtain ⟨e, he⟩ := ih opat hrest
      exact ⟨e, by simp [eventMatchFields, hk, h2, he]⟩

/-- Error-priority fact of the streaming field visitor: an ill-typed
`pattern` value fails with a type error during the content scan, before
the end-of-map check would report the absent `key`. -/
theorem push_condition_illtyped_field_priority :
    PushCondition.deserialize (.obj [("kind", .str "event_match"),
        ("pattern", .num 5)])
      = .error .typeMismatch := rfl

/-- Error-priority fact of the tag scan: a second `kind` entry fails with
a duplicate-field error (checked before the value is even read). -/
theorem push_condition_duplicate_kind :
    PushCondition.deserialize (.obj [("kind", .str "event_match"),
        ("kind", .str "event_match")])
      = .error (.duplicateField "kind") := rfl

/-- Claim C8: `PushCondition` decoding selects the variant solely from the
`kind` discriminator — an object with kind `"event_match"` plus `key` and
`pattern` yields `EventMatch` carrying those strings, decoding fails with
a missing-field error when `kind` is absent and with an unknown-variant
error when the `kind` value is not one of the four recognized tokens, and
decoding fails whenever a selected variant's required field set is
incomplete (with a missing-field error naming the field when the supplied
content is otherwise clean). -/
theorem push_condition_decode :
    (∀ key pat : String,
        PushCondition.deserialize (.obj [("kind", .str "event_match"),
            ("key", .str key), ("pattern", .str pat)])
          = .ok (.eventMatch key pat))
    ∧ (∀ es : List (String × Json), (∀ p ∈ es, p.1 ≠ "kind") →
        PushCondition.deserialize (.obj es) = .error (.missingField "kind"))
    ∧ (∀ (es : List (String × Json)) (k : String),
        jlookup "kind" es = some (.str k) →
        k ≠ "event_match" → k ≠ "contains_display_name" →
        k ≠ "room_member_count" → k ≠ "sender_notification_permission" →
        PushCondition.deserialize (.obj es) = .error (.unknownConditionKind k))
    ∧ (∀ es : List (String × Json),
        jlookup "kind" es = some (.str "event_match") →
        (∀ p ∈ es, p.1 ≠ "key") →
        ∃ e, PushCondition.deserialize (.obj es) = .error e)
    ∧ (∀ pat : String,
        PushCondition.deserialize (.obj [("kind", .str "event_match"),
            ("pattern", .str pat)])
          = .error (.missingField "key")) := by
  refine ⟨fun key pat => rfl, ?_, ?_, ?_, fun pat => rfl⟩
  · intro es h
    simp [PushCondition.deserialize, scanTag_no_kind es [] h]
  · intro es k hk h1 h2 h3 h4
    have hu : condFieldOfStr k = none := by simp [condFieldOfStr, h1, h2, h3, h4]
    simp [PushCondition.deserialize, scanTag_first_unknown es [] k hk hu]
  · intro es hk hkey
    cases hscan : PushCondition.scanTag es none [] with
    | error e => exact ⟨e, by simp [PushCondition.deserialize, hscan]⟩
    | ok pr =>
      obtain ⟨f, content⟩ := pr
      have hf : condFieldOfStr "event_match" = some f :=
        scanTag_ok_tag es [] f content "event_match" hscan hk
      have hf' : f = .eventMatch := by
        simp [condFieldOfStr] at hf
        exact hf.symm
      subst hf'
      have hcontent : ∀ p ∈ content, p.1 ≠ "key" :=
        scanTag_content_keys es [] none .eventMatch content "key"
          (by intro p hp; simp at hp) hkey hscan
      obtain ⟨e, he⟩ := eventMatchFields_no_key content none hcontent
      exact ⟨e, by simp [PushCondition.deserialize, hscan, he]⟩

/-- Witness for C8: each hypothesis-bearing branch of
`push_condition_decode` instantiated at a concrete object. -/
theorem push_condition_decode_witness :
    PushCondition.deserialize (.obj [("pattern", Json.str "x")])
        = .error (.missingField "kind")
    ∧ PushCondition.deserialize (.obj [("kind", Json.str "bogus")])
        = .error (.unknownConditionKind "bogus")
    ∧ ∃ e, PushCondition.deserialize (.obj [("kind", Json.str "event_match")])
        = .error e := by
  refine ⟨?_, ?_, ?_⟩
  · exact push_condition_decode.2.1 _ (by
      intro p hp
      simp only [List.mem_singleton] at hp
      subst hp
      decide)
  · exact push_condition_decode.2.2.1 _ "bogus" rfl (by decide) (by decide) (by decide)
      (by decide)
  · exact push_condition_decode.2.2.2.1 _ rfl (by
      intro p hp
      simp only [List.mem_singleton] at hp
      subst hp
      decide)

/-! Helper lemma for the `Ruleset` decoder: a successful decode implies the
`sender` category was supplied (either already accumulated or among the
remaining entries). -/

theorem ruleset_visit_ok_sender (es : List (String × Json)) (acc : RulesetAcc)
    (r : Ruleset) (h : Ruleset.visitEntries es acc = .ok r) :
    acc.sender ≠ none ∨ ∃ p ∈ es, p.1 = "sender" := by
  induction es generalizing acc with
  | nil =>
    left
    intro hs
    obtain ⟨c, o, rm, snd, u⟩ := acc
    simp only at hs
    subst hs
    cases c with
    | none => exact Except.noConfusion h
    | some c' =>
      cases o with
      | none => exact Except.noConfusion h
      | some o' =>
        cases rm with
        | none => exact Except.noConfusion h
        | some rm' => exact Except.noConfusion h
  | cons q rest ih =>
    obtain ⟨key, value⟩ := q
    by_cases hs : key = "sender"
    · right
      exact ⟨(key, value), List.mem_cons_self _ _, hs⟩
    · have step : ∀ acc' : RulesetAcc, acc'.sender = acc.sender →
          Ruleset.visitEntries rest acc' = .ok r →
          acc.sender ≠ none ∨ ∃ p ∈ (key, value) :: rest, p.1 = "sender" := by
        intro acc' hacc h'
        cases ih acc' h' with
        | inl hl => exact Or.inl (hacc ▸ hl)
        | inr hr =>
          obtain ⟨p, hp, hp1⟩ := hr
          exact Or.inr ⟨p, List.mem_cons_of_mem _ hp, hp1⟩
      simp only [Ruleset.visitEntries] at h
      by_cases h1 : key = "content"
      · rw [if_pos h1] at h
        cases hc : acc.content with
        | some _ => rw [hc] at h; exact Except.noConfusion h
        | none =>
          rw [hc] at h
          cases hd : decodeVec PushRule.deserialize value with
          | error e => rw [hd] at h; exact Except.noConfusion h
          | ok v => rw [hd] at h; exact step { acc with content := some v } rfl h
      · rw [if_neg h1] at h
        by_cases h2 : key = "override"
        · rw [if_pos h2] at h
          cases hc : acc.override with
          | some _ => rw [hc] at h; exact Except.noConfusion h
          | none =>
            rw [hc] at h
            cases hd : decodeVec PushRule.deserialize value with
            | error e => rw [hd] at h; exact Except.noConfusion h
            | ok v => rw [hd] at h; exact step { acc with override := some v } rfl h
        · rw [if_neg h2] at h
          by_cases h3 : key = "room"
          · rw [if_pos h3] at h
            cases hc : acc.room with
            | some _ => rw [hc] at h; exact Except.noConfusion h
            | none =>
              rw [hc] at h
              cases hd : decodeVec PushRule.deserialize value with
              | error e => rw [hd] at h; exact Except.noConfusion h
              | ok v => rw [hd] at h; exact step { acc with room := some v } rfl h
          · rw [if_neg h3, if_neg hs] at h
            by_cases h5 : key = "underride"
            · rw [if_pos h5] at h
              cases hc : acc.underride with
              | some _ => rw [hc] at h; exact Except.noConfusion h
              | none =>
                rw [hc] at h
                cases hd : decodeVec PushRule.deserialize value with
                | error e => rw [hd] at h; exact Except.noConfusion h
                | ok v => rw [hd] at h; exact step { acc with underride := some v } rfl h
            · rw [if_neg h5] at h
              exact step _ rfl h

/-- Counterexample for C1: decoding a `Ruleset` object that supplies the
`content`, `override`, `room` and `underride` categories but omits the
`sender` key fails with a missing-field error instead of yielding an empty
sender sequence — the derived deserializer has no field defaults. -/
theorem ruleset_missing_sender_cex :
    Ruleset.deserialize (.obj [("content", .arr []), ("override", .arr []),
        ("room", .arr []), ("underride", .arr [])])
        = .error (.missingField "sender")
    ∧ Ruleset.deserialize (.obj [("content", .arr []), ("override", .arr []),
        ("room", .arr []), ("underride", .arr [])])
        ≠ .ok ⟨[], [], [], [], []⟩ := by
  refine ⟨rfl, ?_⟩
  intro h
  rw [show Ruleset.deserialize (.obj [("content", .arr []), ("override", .arr []),
      ("room", .arr []), ("underride", .arr [])])
      = .error (.missingField "sender") from rfl] at h
  exact Except.noConfusion h

/-- Claim C1 as amended: decoding a `Ruleset` object in which the `sender`
key is absent always fails with an error; every category key is required
because the derived deserializer treats a missing category as a
missing-field error, not as an empty sequence. -/
theorem ruleset_missing_sender_is_error (es : List (String × Json))
    (h : ∀ p ∈ es, p.1 ≠ "sender") :
    ∃ e, Ruleset.deserialize (.obj es) = .error e := by
  cases hr : Ruleset.deserialize (.obj es) with
  | error e => exact ⟨e, rfl⟩
  | ok r =>
    have hr' : Ruleset.visitEntries es {} = .ok r := hr
    cases ruleset_visit_ok_sender es {} r hr' with
    | inl hl => exact absurd rfl hl
    | inr hrr =>
      obtain ⟨p, hp, hp1⟩ := hrr
      exact absurd hp1 (h p hp)

/-- Witness for C1's amended theorem at the concrete four-category object. -/
theorem ruleset_missing_sender_is_error_witness :
    ∃ e, Ruleset.deserialize (.obj [("content", .arr []), ("override", .arr []),
        ("room", .arr []), ("underride", .arr [])]) = .error e := by
  refine ruleset_missing_sender_is_error _ ?_
  intro p hp
  simp only [List.mem_cons, List.not_mem_nil, or_false] at hp
  rcases hp with rfl | rfl | rfl | rfl <;> decide

end Ruma
